import Mathlib

/-!
Verification development for the rag_fe front-end repository.

Shallow embedding of the client-side logic that the specification
describes: the query response normalizer and sanitizer, the chat hook
operations, the document and topic hooks, the generic retry helper and
the document status poller.  Each definition is translated from the
TypeScript source; the theorems at the end of the file settle the
specification claims.
-/

set_option autoImplicit false

namespace RagFe

/-! ### A model of JavaScript values

The backend envelopes handled by `extractQueryData` are arbitrary JSON
values; field access and truthiness follow JavaScript semantics. -/

/-- A JSON-like JavaScript value: null/undefined, booleans, numbers,
strings, arrays and objects (association lists of fields). -/
inductive JsVal where
  | jnull
  | jbool (b : Bool)
  | jnum (n : Int)
  | jstr (s : String)
  | jarr (elems : List JsVal)
  | jobj (fields : List (String × JsVal))

/-- JavaScript truthiness of a value: null/undefined, `false`, `0` and
the empty string are falsy; objects and arrays are always truthy. -/
def truthy : JsVal → Bool
  | .jnull => false
  | .jbool b => b
  | .jnum n => !(n == 0)
  | .jstr s => !(s == "")
  | .jarr _ => true
  | .jobj _ => true

/-- Property access `v.k`: the first binding of field `k` when `v` is an
object, `undefined` (modelled as `none`) otherwise. -/
def getField : JsVal → String → Option JsVal
  | .jobj fields, k => fields.lookup k
  | _, _ => none

/-- Truthiness of an optionally-present value, as in a JavaScript
`if (x?.y)` test: an absent value is falsy. -/
def optTruthy : Option JsVal → Bool
  | none => false
  | some v => truthy v

/-- Presence of a field on a value, irrespective of its truthiness. -/
def hasField (v : JsVal) (k : String) : Bool :=
  (getField v k).isSome

/-- Embedding of `extractQueryData` (part_000, lines 743-756).  The
source checks, in order: `response?.data?.success && response.data?.data`
returning `response.data.data`; then `response?.data?.response` returning
`response.data`; then `response?.response` returning `response`; and
returns `null` otherwise.  Each test is a JavaScript truthiness test. -/
def extractQueryData (response : JsVal) : Option JsVal :=
  if optTruthy ((getField response "data").bind (fun d => getField d "success"))
      && optTruthy ((getField response "data").bind (fun d => getField d "data")) then
    (getField response "data").bind (fun d => getField d "data")
  else if optTruthy ((getField response "data").bind (fun d => getField d "response")) then
    getField response "data"
  else if optTruthy (getField response "response") then
    some response
  else
    none

/-- Written from the amended claim wording: shape (a), the doubly-nested
envelope, matches when `data.success` is truthy and `data.data` is
truthy. -/
def shapeA (r : JsVal) : Bool :=
  optTruthy ((getField r "data").bind (fun d => getField d "success"))
    && optTruthy ((getField r "data").bind (fun d => getField d "data"))

/-- Written from the amended claim wording: shape (b), the singly-nested
envelope whose `data` carries a truthy `response` field. -/
def shapeB (r : JsVal) : Bool :=
  optTruthy ((getField r "data").bind (fun d => getField d "response"))

/-- Written from the amended claim wording: shape (c), a bare object with
a truthy top-level `response` field. -/
def shapeC (r : JsVal) : Bool :=
  optTruthy (getField r "response")

/-- Written from the amended claim wording: resolve the three shapes in
the fixed order a, b, c, returning the payload of the first match and no
data when none match. -/
def specResolve (r : JsVal) : Option JsVal :=
  if shapeA r then (getField r "data").bind (fun d => getField d "data")
  else if shapeB r then getField r "data"
  else if shapeC r then some r
  else none

/-- Concrete envelope for the C1 counterexample: a bare object whose
top-level `response` field is present but holds the empty string. -/
def c1Envelope : JsVal :=
  .jobj [("response", .jstr "")]

/-! ### The response sanitizer `cleanResponseContent`

Embedding of `cleanResponseContent` (part_000, lines 758-769).  The
source applies three global case-insensitive regex replacements and a
trim:

  - `/<think>[\s\S]*?<\/think>/gi` replaced by the empty string: every
    leftmost `<think>` followed by a nearest `</think>` is deleted with
    its enclosed content, scanning resuming after the deleted span;
  - `/<\/?reasoning>/gi` replaced by the empty string;
  - `/<\/?final_answer>/gi` replaced by the empty string;
  - `.trim()`.

Strings are modelled as lists of characters so that the left-to-right
scan of the regex engine is explicit. -/

/-- Shorthand turning a string literal into its character list. -/
def str (s : String) : List Char := s.data

/-- Case-insensitive character comparison, as the `i` regex flag. -/
def lcEq (a b : Char) : Bool :=
  a.toLower == b.toLower

/-- Pointwise case-insensitive equality of two character lists. -/
def ciEqL : List Char → List Char → Bool
  | [], [] => true
  | p :: ps, c :: cs => lcEq p c && ciEqL ps cs
  | _, _ => false

/-- Try to match the pattern case-insensitively at the head of the
input; on success return the rest of the input after the match. -/
def tryDropCI : List Char → List Char → Option (List Char)
  | [], s => some s
  | _ :: _, [] => none
  | p :: ps, c :: cs => if lcEq p c then tryDropCI ps cs else none

/-- Whether the pattern matches case-insensitively at the head. -/
def headMatch (pat s : List Char) : Bool :=
  (tryDropCI pat s).isSome

/-- The characters of the `<think>` opening tag. -/
def thinkOpen : List Char := str "<think>"

/-- The characters of the `</think>` closing tag. -/
def thinkClose : List Char := str "</think>"

/-- Scan for the first case-insensitive occurrence of `</think>` and
return the rest of the input after it; this is the lazy completion of
the `[\s\S]*?<\/think>` part of the regex. -/
def findClose : List Char → Option (List Char)
  | [] => none
  | c :: cs =>
    match tryDropCI thinkClose (c :: cs) with
    | some rest => some rest
    | none => findClose cs

/-- Fuel-indexed worker for the `<think>` span removal; the fuel is an
upper bound on the input length, so the scan is structural. -/
def removeThinkAux : Nat → List Char → List Char
  | _, [] => []
  | 0, _ :: _ => []
  | fuel + 1, c :: cs =>
    match tryDropCI thinkOpen (c :: cs) with
    | some rest =>
      match findClose rest with
      | some rest2 => removeThinkAux fuel rest2
      | none => c :: removeThinkAux fuel cs
    | none => c :: removeThinkAux fuel cs

/-- Global replacement of `/<think>[\s\S]*?<\/think>/gi` by the empty
string: at each position, a `<think>` with a nearest following
`</think>` is deleted together with the enclosed content and the scan
resumes after the deleted span; a `<think>` with no following close tag
does not match and the scan moves on by one character. -/
def removeThink (s : List Char) : List Char :=
  removeThinkAux s.length s

/-- Opening tag token `<name>` for a tag name. -/
def openTok (name : List Char) : List Char :=
  '<' :: (name ++ ['>'])

/-- Closing tag token `</name>` for a tag name. -/
def closeTok (name : List Char) : List Char :=
  '<' :: '/' :: (name ++ ['>'])

/-- Fuel-indexed worker for the stray-tag removal. -/
def stripTagAux (name : List Char) : Nat → List Char → List Char
  | _, [] => []
  | 0, _ :: _ => []
  | fuel + 1, c :: cs =>
    match tryDropCI (closeTok name) (c :: cs) with
    | some rest => stripTagAux name fuel rest
    | none =>
      match tryDropCI (openTok name) (c :: cs) with
      | some rest => stripTagAux name fuel rest
      | none => c :: stripTagAux name fuel cs

/-- Global replacement of `/<\/?name>/gi` by the empty string: every
`<name>` or `</name>` token is removed, the surrounding text kept. -/
def stripTag (name : List Char) (s : List Char) : List Char :=
  stripTagAux name s.length s

/-- Tag name of the `<reasoning>` tokens. -/
def reasoningName : List Char := str "reasoning"

/-- Tag name of the `<final_answer>` tokens. -/
def finalAnswerName : List Char := str "final_answer"

/-- Whitespace as recognised by JavaScript `trim`. -/
def isJsWS (c : Char) : Bool :=
  c == ' ' || c == '\t' || c == '\n' || c == '\r' ||
    c == Char.ofNat 11 || c == Char.ofNat 12 || c == Char.ofNat 160 ||
    c == Char.ofNat 65279 || c == Char.ofNat 8232 || c == Char.ofNat 8233

/-- JavaScript `String.prototype.trim`: drop leading and trailing
whitespace. -/
def trimWS (s : List Char) : List Char :=
  ((s.dropWhile isJsWS).reverse.dropWhile isJsWS).reverse

/-- Embedding of `cleanResponseContent` (part_000, lines 758-769): the
empty-string guard, the `<think>` span removal, the two stray-tag
removals and the final trim, in source order. -/
def cleanResponseContent (content : List Char) : List Char :=
  if content == [] then []
  else trimWS (stripTag finalAnswerName (stripTag reasoningName (removeThink content)))

/-- Boolean test that the pattern matches at no position inside `a` when
`a` is followed by `t` (matches may inspect characters of `t`). -/
def noMatchWithin (pat : List Char) : List Char → List Char → Bool
  | [], _ => true
  | c :: cs, t => !headMatch pat (c :: (cs ++ t)) && noMatchWithin pat cs t

/-- Boolean test that neither token of a tag name matches at any
position of the input. -/
def noTagMatch (name : List Char) : List Char → Bool
  | [] => true
  | c :: cs =>
    !headMatch (closeTok name) (c :: cs) && !headMatch (openTok name) (c :: cs)
      && noTagMatch name cs

/-- Concrete input for the C3 counterexample: removing the inner
`<reasoning>` token splices the surrounding text into a new
`<reasoning>` token, so a second sanitizer pass changes the result. -/
def c3Input : List Char := str "<reas<reasoning>oning>"

/-! ### The chat hook (part_008)

The `useChat` hook holds a message list and exposes `sendMessage`,
`clearMessages`, `removeMessage`, `rateMessage` and
`regenerateResponse`.  Each operation is embedded as a transformation
of the message list; backend results, fresh identifiers and timestamps
are parameters of the transformation. -/

/-- Role of a chat message. -/
inductive MsgType where
  | user
  | assistant
deriving DecidableEq

/-- A chat message, restricted to the fields the hook operations read
or write: identifier, role, text content, stored query identifier and
rating. -/
structure ChatMsg where
  id : String
  mtype : MsgType
  content : String
  queryId : Option String
  rating : Option Nat
deriving DecidableEq

/-- The result of the awaited query call inside `sendMessage`: either a
successfully normalized response (the assistant message built from it)
or a failure (the fixed error assistant message built in the catch
block). -/
inductive SendOutcome where
  | success (assistantMsg : ChatMsg)
  | failure (errorMsg : ChatMsg)

/-- The assistant message that `sendMessage` finally appends. -/
def outcomeMsg : SendOutcome → ChatMsg
  | .success a => a
  | .failure e => e

/-- Embedding of `sendMessage` (part_008, lines 62-155) as its effect on
the message list: an empty-after-trim content or a loading chat returns
with no change; otherwise the user message is appended and then, when
the awaited call resolves, the assistant message (success or error) is
appended. -/
def sendMessage (ms : List ChatMsg) (content : String) (isLoading : Bool)
    (userMsg : ChatMsg) (out : SendOutcome) : List ChatMsg :=
  if content.trim == "" || isLoading then ms
  else ms ++ [userMsg] ++ [outcomeMsg out]

/-- Embedding of `clearMessages` (part_008): the list is reset. -/
def clearMessages : List ChatMsg := []

/-- Embedding of `removeMessage` (part_008, lines 162-164): the message
with the given identifier is filtered out. -/
def removeMessage (ms : List ChatMsg) (messageId : String) : List ChatMsg :=
  ms.filter (fun m => !(m.id == messageId))

/-- JavaScript truthiness of an optional string (an absent or empty
string is falsy). -/
def optStrTruthy : Option String → Bool
  | none => false
  | some s => !(s == "")

/-- The local rating update inside `rateMessage`: the matching message
has its rating field replaced, every other message is unchanged. -/
def applyRating (ms : List ChatMsg) (messageId : String) (rating : Nat) : List ChatMsg :=
  ms.map (fun m => if m.id == messageId then { m with rating := some rating } else m)

/-- Embedding of `rateMessage` (part_008) as its effect on the message
list: when the located message is an assistant message with a truthy
stored query identifier, the rating endpoint is called and the local
update happens only on success (the failure path only toasts);
otherwise the rating is updated locally without an endpoint call. -/
def rateMessage (ms : List ChatMsg) (messageId : String) (rating : Nat)
    (apiOk : Bool) : List ChatMsg :=
  match ms.find? (fun m => m.id == messageId) with
  | some m =>
    if m.mtype == MsgType.assistant && optStrTruthy m.queryId then
      if apiOk then applyRating ms messageId rating else ms
    else applyRating ms messageId rating
  | none => applyRating ms messageId rating

/-- The options object of `regenerateResponse`. -/
structure RegenOptions where
  focusTopics : List String
  excludeTopics : List String
  detailLevel : Option String

/-- The modified query text `regenerateResponse` builds from the
original user message content and the options. -/
def modifiedQueryOf (base : String) (o : RegenOptions) : String :=
  let q1 := if o.focusTopics.length > 0 then
      base ++ " (Focus on: " ++ String.intercalate ", " o.focusTopics ++ ")"
    else base
  let q2 := if o.excludeTopics.length > 0 then
      q1 ++ " (Exclude: " ++ String.intercalate ", " o.excludeTopics ++ ")"
    else q1
  match o.detailLevel with
  | some dl => if !(dl == "standard") then q2 ++ " (" ++ dl ++ " analysis)" else q2
  | none => q2

/-- Embedding of `regenerateResponse` (part_008, lines 272-312) as its
effect on the message list: when the message is found and the entry
just before it is a user message, the old assistant message is filtered
out and `sendMessage` runs with the modified query; any failed guard
leaves the list unchanged. -/
def regenerateResponse (ms : List ChatMsg) (messageId : String) (o : RegenOptions)
    (isLoading : Bool) (newUserMsg : ChatMsg) (out : SendOutcome) : List ChatMsg :=
  match ms.find? (fun m => m.id == messageId) with
  | none => ms
  | some _ =>
    let i := ms.findIdx (fun m => m.id == messageId)
    match (if i == 0 then none else ms.get? (i - 1)) with
    | none => ms
    | some um =>
      if um.mtype == MsgType.user then
        sendMessage (ms.filter (fun m => !(m.id == messageId)))
          (modifiedQueryOf um.content o) isLoading newUserMsg out
      else ms

/-- Two messages agree on every field except possibly the rating. -/
def sameExceptRating (m m2 : ChatMsg) : Prop :=
  m2 = { m with rating := m2.rating }

/-- Concrete assistant message for the C6 counterexample. -/
def c6Msg : ChatMsg :=
  ⟨"a", MsgType.assistant, "hi", none, none⟩

/-! ### The documents hook (part_010): upload validation, batch delete
and derived statistics -/

/-- Document status strings used by the front end. -/
inductive DocStatus where
  | uploading
  | uploaded
  | processing
  | processed
  | error
deriving DecidableEq

/-- A document record, restricted to the fields these operations
read: identifier, file name and status. -/
structure Document where
  id : String
  filename : String
  status : DocStatus
deriving DecidableEq

/-- A file as seen by the upload validation: its name and its size in
bytes. -/
structure FileDesc where
  name : List Char
  size : Nat
deriving DecidableEq

/-- JavaScript `name.split(".")`: the components of the name between
dots; splitting the empty name gives one empty component. -/
def splitOnDot : List Char → List (List Char)
  | [] => [[]]
  | c :: cs =>
    if c == '.' then [] :: splitOnDot cs
    else
      match splitOnDot cs with
      | [] => [[c]]
      | comp :: rest => (c :: comp) :: rest

/-- JavaScript `array.pop()` on the non-empty split result: the last
component. -/
def lastComp : List (List Char) → List Char
  | [] => []
  | [x] => x
  | _ :: x :: xs => lastComp (x :: xs)

/-- The extension the source computes:
`file.name.split(".").pop()?.toLowerCase()`. -/
def fileExtensionOf (f : FileDesc) : List Char :=
  (lastComp (splitOnDot f.name)).map Char.toLower

/-- The allowed extension list of the source. -/
def allowedTypes : List (List Char) :=
  [str "pdf", str "docx", str "txt", str "pptx"]

/-- The 50 MB size limit of the source. -/
def maxSize : Nat := 50 * 1024 * 1024

/-- The size-rejection toast text of the source. -/
def sizeToast : String := "File size exceeds 50MB limit"

/-- The type-rejection toast text of the source:
`File type not supported. Allowed types: ${allowedTypes.join(", ")}`. -/
def typeToast : String := "File type not supported. Allowed types: pdf, docx, txt, pptx"

/-- The backend reply to an upload request, when one is issued. -/
inductive UploadReply where
  | ok (d : Document)
  | err (message : String)

/-- The observable result of `uploadDocument`: the returned value, the
toasts emitted, and whether a network request was issued. -/
structure UploadResult where
  returned : Option Document
  toasts : List String
  networkCalled : Bool
deriving DecidableEq

/-- Embedding of `uploadDocument` (part_010, lines 411-455): the missing
file, over-size and bad-extension guards run before any network call,
each returning null with an error toast; only a file passing all three
is uploaded, the backend reply deciding the returned document. -/
def uploadDocument (file : Option FileDesc) (reply : UploadReply) : UploadResult :=
  match file with
  | none => ⟨none, ["No file selected"], false⟩
  | some f =>
    if f.size > maxSize then ⟨none, [sizeToast], false⟩
    else
      let ext := fileExtensionOf f
      if ext == [] || !(allowedTypes.contains ext) then ⟨none, [typeToast], false⟩
      else
        match reply with
        | .ok d => ⟨some d, ["\"" ++ String.mk f.name ++ "\" uploaded successfully"], true⟩
        | .err m => ⟨none, [m], true⟩

/-- The backend reply to a batch delete request: a transport or thrown
error, an envelope with `success:false`, or a success envelope with an
optional `summary` of successful and failed deletion counts. -/
inductive BatchReply where
  | httpError
  | appFailure
  | ok (summary : Option (Nat × Nat))

/-- Embedding of `batchDeleteDocuments` (part_010, lines 550-584) as the
success and failed counts it returns: an empty selection returns zero
counts; a success envelope with a summary returns the summary counts
verbatim; a success envelope without a summary counts every requested
identifier as deleted; a failure envelope or thrown error counts every
requested identifier as failed. -/
def batchDeleteDocuments (ids : List String) (reply : BatchReply) : Nat × Nat :=
  if ids.length == 0 then (0, 0)
  else
    match reply with
    | .ok (some (s, f)) => (s, f)
    | .ok none => (ids.length, 0)
    | .appFailure => (0, ids.length)
    | .httpError => (0, ids.length)

/-- Boolean well-formedness of the backend summary relative to the
request: when a summary is present its two counts sum to the number of
requested identifiers; replies without a summary impose nothing. -/
def summarySumsTo (ids : List String) : BatchReply → Bool
  | .ok (some (s, f)) => s + f == ids.length
  | _ => true

/-! ### The topics hook (part_010): derived statistics -/

/-- A topic record, restricted to the fields `getTopicStats` reads. -/
structure Topic where
  category : Option String
  content_count : Option Nat
deriving DecidableEq

/-- JavaScript `topic.content_count || 0`: an absent or zero count is
zero. -/
def contentCountOf (t : Topic) : Nat :=
  match t.content_count with
  | some n => n
  | none => 0

/-- JavaScript `topic.category || "uncategorized"`: an absent or empty
category falls back to the literal. -/
def categoryOf (t : Topic) : String :=
  match t.category with
  | some s => if s == "" then "uncategorized" else s
  | none => "uncategorized"

/-- JavaScript `Math.round`: round half toward positive infinity. -/
def jsRound (q : Rat) : Int :=
  ⌊q + 1 / 2⌋

/-- The statistics object `getTopicStats` returns. -/
structure TopicStats where
  total : Nat
  withContent : Nat
  categories : Nat
  avgContent : Rat
  contentCoverage : Int
deriving DecidableEq

/-- Embedding of `getTopicStats` (part_010, lines 297-313): the empty
collection short-circuits to the all-zero object; otherwise the
averages and the coverage percentage divide by the (non-zero) total. -/
def getTopicStats (topics : List Topic) : TopicStats :=
  if topics.length == 0 then ⟨0, 0, 0, 0, 0⟩
  else
    let total := topics.length
    let withContent := (topics.filter (fun t => contentCountOf t > 0)).length
    let categories := ((topics.map categoryOf).dedup).length
    let avgContent : Rat := (topics.map contentCountOf).sum / total
    { total := total
      withContent := withContent
      categories := categories
      avgContent := (jsRound (avgContent * 100) : Rat) / 100
      contentCoverage := jsRound ((withContent : Rat) / total * 100) }

/-- The statistics object `getDocumentStats` returns. -/
structure DocumentStats where
  total : Nat
  processed : Nat
  processing : Nat
  uploaded : Nat
  errors : Nat
  successRate : Int
deriving DecidableEq

/-- Embedding of `getDocumentStats` (part_010, lines 615-630): per-status
counts and a success-rate percentage guarded by `total > 0`. -/
def getDocumentStats (documents : List Document) : DocumentStats :=
  let total := documents.length
  let processed := (documents.filter (fun d => d.status == DocStatus.processed)).length
  { total := total
    processed := processed
    processing := (documents.filter (fun d => d.status == DocStatus.processing)).length
    uploaded := (documents.filter (fun d => d.status == DocStatus.uploaded)).length
    errors := (documents.filter (fun d => d.status == DocStatus.error)).length
    successRate := if total > 0 then jsRound ((processed : Rat) / total * 100) else 0 }

/-! ### The generic retry helper (src/services/api.ts, lines 911-941) -/

/-- The result of one attempted API call: a resolved promise, an HTTP
failure carrying a response status, or a network failure with no
response. -/
inductive AttemptResult where
  | success
  | httpFail (status : Nat)
  | netFail
deriving DecidableEq

/-- The source test `status && status >= 400 && status < 500`: a client
error is an HTTP failure whose (truthy) status lies in the 4xx range. -/
def isClientError : AttemptResult → Bool
  | .httpFail s => !(s == 0) && decide (400 ≤ s) && decide (s < 500)
  | _ => false

/-- An attempt the helper retries: a failure that is not a 4xx client
error (a 5xx or untruthy-status HTTP failure, or a network failure). -/
def retriable : AttemptResult → Bool
  | .success => false
  | .netFail => true
  | .httpFail s => !(!(s == 0) && decide (400 ≤ s) && decide (s < 500))

/-- How `retryApiCall` ends: the resolved value of some attempt, or an
error rethrown after some attempt. -/
inductive RetryOutcome where
  | ok (attempt : Nat)
  | thrown (e : AttemptResult) (attempt : Nat)
deriving DecidableEq

/-- Worker for `retryApiCall`: `attempt` is the loop counter, the fuel
counts the loop iterations still allowed (entered as `maxRetries + 1`),
and the returned list records the backoff delays slept, in order.  On
an error the source first rethrows when `attempt === maxRetries`, then
rethrows 4xx client errors, and otherwise sleeps
`baseDelay * 2 ** attempt` and loops. -/
def retryAux (res : Nat → AttemptResult) (baseDelay maxRetries : Nat) :
    Nat → Nat → RetryOutcome × List Nat
  | attempt, 0 => (.thrown (res attempt) attempt, [])
  | attempt, fuel + 1 =>
    match res attempt with
    | .success => (.ok attempt, [])
    | e =>
      if attempt == maxRetries then (.thrown e attempt, [])
      else if isClientError e then (.thrown e attempt, [])
      else
        let r := retryAux res baseDelay maxRetries (attempt + 1) fuel
        (r.1, baseDelay * 2 ^ attempt :: r.2)

/-- Embedding of `retryApiCall` (src/services/api.ts, lines 911-941):
attempts run for `attempt` from 0 to `maxRetries`; `res` gives the
result of each attempt. -/
def retryApiCall (res : Nat → AttemptResult) (maxRetries baseDelay : Nat) :
    RetryOutcome × List Nat :=
  retryAux res baseDelay maxRetries 0 (maxRetries + 1)

/-- The exponential backoff delays slept before reaching attempt `j`
when every earlier attempt failed retriably: the base delay doubles
after each attempt. -/
def backoffDelays (baseDelay j : Nat) : List Nat :=
  (List.range j).map (fun i => baseDelay * 2 ^ i)

/-- Concrete attempt results for the C9 witness: a network failure, then
an HTTP 404 client error. -/
def retryRes1 : Nat → AttemptResult :=
  fun i => if i == 0 then .netFail else .httpFail 404

/-- Concrete attempt results for the C9 witness: every attempt is an
HTTP 500 server error. -/
def retryRes2 : Nat → AttemptResult :=
  fun _ => .httpFail 500

/-! ### The document status poller (DocumentUpload.tsx)

The component keeps a map `pollingIntervals` from document identifier
to interval handle, two in-flight identifier sets `processing` and
`reprocessing`, an elapsed-time map `processingTimers`, and clears the
registered intervals on unmount.

The interval callback `pollStatus` created by `startPolling` (lines
89-110) is a closure over the creating render: it captures the `documents` prop of that render and the `stopPolling` of that render, whose
`pollingIntervals` value predates the registration of the very handle
being created (the `setPollingIntervals` on line 109 commits only on a
later render).  The callback therefore can never find and clear its
own interval; what actually stops a poll is the status-monitor effect
(lines 158-169), which runs after re-renders with current state.  The
state below records, per live timer, the snapshots its callback closed
over, and counts the document-refresh calls, so that polling after
teardown is observable. -/

/-- A created and not-yet-cleared interval timer: its handle, the
document identifier and reprocessing flag its callback closed over,
and the `documents` prop and `pollingIntervals` map of the creating render,
which the captured `pollStatus`/`stopPolling` closures read. -/
structure LiveInterval where
  handle : Nat
  docId : String
  isReproc : Bool
  capturedDocuments : List Document
  capturedRegistry : List (String × Nat)
deriving DecidableEq

/-- The component state touched by the poller. -/
structure PollerState where
  pollingIntervals : List (String × Nat)
  live : List LiveInterval
  processing : List String
  reprocessing : List String
  processingTimers : List (String × Nat)
  toasts : List String
  refreshCalls : Nat
  nextHandle : Nat
  documents : List Document
deriving DecidableEq

/-- JavaScript `Map.get`. -/
def lookupKey (m : List (String × Nat)) (k : String) : Option Nat :=
  match m with
  | [] => none
  | (k2, v) :: rest => if k2 == k then some v else lookupKey rest k

/-- JavaScript `Map.set`: replace the value under an existing key,
otherwise append a new entry. -/
def setKey (m : List (String × Nat)) (k : String) (v : Nat) : List (String × Nat) :=
  match m with
  | [] => [(k, v)]
  | (k2, v2) :: rest => if k2 == k then (k, v) :: rest else (k2, v2) :: setKey rest k v

/-- JavaScript `Map.delete`. -/
def delKey (m : List (String × Nat)) (k : String) : List (String × Nat) :=
  m.filter (fun p => !(p.1 == k))

/-- Embedding of `startPolling` (DocumentUpload.tsx, lines 89-110): a
new interval timer is created and registered under the document
identifier.  The callback closes over the documents of the creating render
and its pre-registration registry; a previously registered handle for
the identifier is overwritten in the map without being cleared. -/
def startPolling (s : PollerState) (documentId : String) (isReproc : Bool) : PollerState :=
  { s with
    live := s.live ++ [⟨s.nextHandle, documentId, isReproc, s.documents, s.pollingIntervals⟩]
    pollingIntervals := setKey s.pollingIntervals documentId s.nextHandle
    nextHandle := s.nextHandle + 1 }

/-- Embedding of `stopPolling` (DocumentUpload.tsx, lines 113-169) as
called from a closure: `snapRegistry` and `snapDocuments` are the
`pollingIntervals` and `documents` of the calling render (the plain reads on
lines 115 and 148), while the `setState` updates with functional
callbacks act on the committed state `s`.  The interval found in the
snapshot registry, when any, is cleared and the identifier unregistered
from the committed map; the identifier is removed from the reprocessing
or processing set according to the flag; the timer entry is removed;
and when the snapshot documents hold the document with a terminal
status, a completion or failure toast naming the file is emitted. -/
def stopPollingWith (snapRegistry : List (String × Nat)) (snapDocuments : List Document)
    (s : PollerState) (documentId : String) (isReproc : Bool) : PollerState :=
  let s1 :=
    match lookupKey snapRegistry documentId with
    | some h =>
      { s with
        live := s.live.filter (fun li => !(li.handle == h))
        pollingIntervals := delKey s.pollingIntervals documentId }
    | none => s
  let s2 :=
    if isReproc then { s1 with reprocessing := s1.reprocessing.filter (fun i => !(i == documentId)) }
    else { s1 with processing := s1.processing.filter (fun i => !(i == documentId)) }
  let s3 := { s2 with processingTimers := delKey s2.processingTimers documentId }
  match snapDocuments.find? (fun d => d.id == documentId) with
  | some d =>
    match d.status with
    | .processed =>
      { s3 with toasts := s3.toasts ++
          [(if isReproc then "Reprocessing" else "Processing") ++ " completed: " ++ d.filename] }
    | .error =>
      { s3 with toasts := s3.toasts ++
          [(if isReproc then "Reprocessing" else "Processing") ++ " failed: " ++ d.filename] }
    | _ => s3
  | none => s3

/-- One firing of an interval timer (the `pollStatus` callback,
DocumentUpload.tsx lines 90-105): a cleared timer does nothing; a live
timer calls `onDocumentsRefresh` and then inspects the documents its
closure captured — not the refreshed ones — calling the captured
`stopPolling` only when that stale snapshot already shows a terminal
status; that `stopPolling` in turn reads the captured registry, which
does not contain the handle registered after the closure was built. -/
def tickPoll (s : PollerState) (h : Nat) : PollerState :=
  match s.live.find? (fun li => li.handle == h) with
  | none => s
  | some li =>
    let s1 := { s with refreshCalls := s.refreshCalls + 1 }
    match li.capturedDocuments.find? (fun d => d.id == li.docId) with
    | some d =>
      if d.status == DocStatus.processed || d.status == DocStatus.error then
        stopPollingWith li.capturedRegistry li.capturedDocuments s1 li.docId li.isReproc
      else s1
    | none => s1

/-- Whether the captured documents snapshot of a live timer shows its tracked
document in a non-terminal state (the usual case: polling starts while
the document is processing). -/
def capturedNotTerminal (li : LiveInterval) : Bool :=
  match li.capturedDocuments.find? (fun d => d.id == li.docId) with
  | some d => !(d.status == DocStatus.processed || d.status == DocStatus.error)
  | none => true

/-- The per-document condition of the status-monitor effect
(DocumentUpload.tsx, lines 158-169): the document is in one of the
in-flight sets and its status is terminal. -/
def monitorTrigger (s : PollerState) (d : Document) : Bool :=
  (s.processing.contains d.id || s.reprocessing.contains d.id)
    && (d.status == DocStatus.processed || d.status == DocStatus.error)

/-- One iteration of the `documents.forEach` of the monitor effect: a
triggering document is stopped via the `stopPolling` of the current render,
whose captured registry and documents are the render state `snap`. -/
def monitorStep (snap : PollerState) (acc : PollerState) (d : Document) : PollerState :=
  if monitorTrigger snap d then
    stopPollingWith snap.pollingIntervals snap.documents acc d.id (snap.reprocessing.contains d.id)
  else acc

/-- Embedding of the status-monitor effect (DocumentUpload.tsx, lines
158-169): after a render with state `s`, every in-flight document whose
status is terminal is stopped. -/
def monitorEffect (s : PollerState) : PollerState :=
  s.documents.foldl (monitorStep s) s

/-- The unmount cleanup of the component: every interval handle held in
the `pollingIntervals` map is cleared.  A live timer whose handle was
overwritten out of the map is not cleared. -/
def unmountCleanup (s : PollerState) : PollerState :=
  { s with live := s.live.filter (fun li => !((s.pollingIntervals.map Prod.snd).contains li.handle)) }

/-- Every live interval timer is still registered in the map under its
document identifier; this holds until polling is started for an
identifier that is already being polled. -/
def registryComplete (s : PollerState) : Prop :=
  ∀ li ∈ s.live, lookupKey s.pollingIntervals li.docId = some li.handle

/-- Initial component state for the poller scenarios: one document,
still processing, no timers. -/
def pollInit : PollerState :=
  ⟨[], [], ["doc-1"], [], [("doc-1", 5)], [], 0, 0, [⟨"doc-1", "report.pdf", DocStatus.processing⟩]⟩

/-- State for the C4 witness, step 1: polling started for the
processing document. -/
def pollStarted : PollerState :=
  startPolling pollInit "doc-1" false

/-- State for the C4 witness, step 2: after the first tick (which only
triggers the refresh) the parent re-fetch commits the terminal status
into the documents prop; the monitor effect then runs on this state. -/
def pollRefreshed : PollerState :=
  { tickPoll pollStarted 0 with documents := [⟨"doc-1", "report.pdf", DocStatus.processed⟩] }

/-- State for the C4 counterexample and the C5 failing input: polling
started twice for the same identifier. -/
def pollTwice : PollerState :=
  startPolling (startPolling pollInit "doc-1" false) "doc-1" false

/-- Concrete oversized file for the C7 witness: 60 MB. -/
def bigFile : FileDesc := ⟨str "big.pdf", 60 * 1024 * 1024⟩

/-- Concrete wrongly-typed file for the C7 witness. -/
def exeFile : FileDesc := ⟨str "virus.exe", 1000⟩

/-- The completion toast `stopPolling` emits for a document found with a
terminal status: success wording for processed, failure wording for
error, naming the file. -/
def toastOf (isReproc : Bool) (d : Document) : String :=
  (if isReproc then "Reprocessing" else "Processing") ++
    (if d.status == DocStatus.processed then " completed: " else " failed: ") ++ d.filename

/-! ## Theorems -/

/-! ### C1: shape resolution order of `extractQueryData` -/

/-- C1 counterexample: the claim states that a bare object with a
top-level `response` field yields the payload of shape (c), but the
source tests truthiness, so an envelope whose `response` field holds
the empty string has the field present yet `extractQueryData` returns
no data. -/
theorem extractQueryData_presence_not_sufficient :
    extractQueryData c1Envelope = none ∧ hasField c1Envelope "response" = true :=
  ⟨rfl, rfl⟩

/-- C1 amended: `extractQueryData` resolves the three envelope shapes in
the fixed order (a) doubly-nested success envelope with truthy
`data.success` and truthy `data.data`, (b) singly-nested envelope whose
`data` carries a truthy `response` field, (c) bare object with a truthy
top-level `response` field; the payload of the first matching shape is
returned and no data is returned when none match. -/
theorem extractQueryData_eq_specResolve (r : JsVal) :
    extractQueryData r = specResolve r := rfl

/-! ### C5: duplicate `startPolling` overwrites without clearing -/

/-- C5 evaluation at the failing input: after starting polling twice for
the same document identifier, the registry holds a single entry (the
later handle), yet both interval timers are still live and the
displaced timer still fires a poll.  The source therefore does not
replace the earlier timer; it only overwrites the registry entry. -/
theorem startPolling_duplicate_leaks :
    pollTwice.pollingIntervals = [("doc-1", 1)]
      ∧ pollTwice.live =
          [⟨0, "doc-1", false, pollInit.documents, []⟩,
            ⟨1, "doc-1", false, pollInit.documents, [("doc-1", 0)]⟩]
      ∧ (tickPoll pollTwice 0).refreshCalls = pollTwice.refreshCalls + 1 := by
  decide

/-! ### C7: client-side upload validation -/

/-- C7: `uploadDocument` validates before any network call: an
over-limit file is rejected with the 50 MB toast and no request, and a
file whose computed extension is not in the allowed list is rejected
with the allowed-extensions toast and no request. -/
theorem uploadDocument_validates (f : FileDesc) (reply : UploadReply) :
    (f.size > maxSize → uploadDocument (some f) reply = ⟨none, [sizeToast], false⟩)
      ∧ (f.size ≤ maxSize → allowedTypes.contains (fileExtensionOf f) = false →
          uploadDocument (some f) reply = ⟨none, [typeToast], false⟩) := by
  constructor
  · intro hsz
    simp [uploadDocument, hsz]
  · intro hle hext
    have h1 : ¬ f.size > maxSize := by omega
    have hmem : fileExtensionOf f ∉ allowedTypes := by simpa using hext
    simp [uploadDocument, h1, hmem]

/-- C7 witness: a 60 MB file is rejected citing the 50 MB limit, and a
`.exe` file is rejected citing the allowed-extensions list, both with
no network request. -/
theorem uploadDocument_validates_witness :
    uploadDocument (some bigFile) (.err "boom") = ⟨none, [sizeToast], false⟩
      ∧ uploadDocument (some exeFile) (.err "boom") = ⟨none, [typeToast], false⟩ :=
  ⟨(uploadDocument_validates bigFile (.err "boom")).1 (by decide),
    (uploadDocument_validates exeFile (.err "boom")).2 (by decide) (by decide)⟩

/-! ### C8: batch delete count pair -/

/-- C8 counterexample: for the single-identifier request, a success
envelope carrying the backend summary `(5, 7)` is returned verbatim, so
the two counts sum to 12, not to the number of requested identifiers. -/
theorem batchDeleteDocuments_summary_not_bounded :
    batchDeleteDocuments ["a"] (.ok (some (5, 7))) = (5, 7)
      ∧ (batchDeleteDocuments ["a"] (.ok (some (5, 7)))).1
          + (batchDeleteDocuments ["a"] (.ok (some (5, 7)))).2
          ≠ (["a"] : List String).length := by
  decide

/-- C8 amended: for every non-empty request, `batchDeleteDocuments`
returns a success/failure count pair whose counts sum to the number of
requested identifiers, provided that a backend summary, when present,
itself sums to that number; the no-summary success case and the error
cases sum unconditionally. -/
theorem batchDeleteDocuments_counts (ids : List String) (reply : BatchReply)
    (hne : ids ≠ []) (hsum : summarySumsTo ids reply = true) :
    (batchDeleteDocuments ids reply).1 + (batchDeleteDocuments ids reply).2 = ids.length := by
  cases ids with
  | nil => exact absurd rfl hne
  | cons a l =>
    cases reply with
    | httpError => simp [batchDeleteDocuments]
    | appFailure => simp [batchDeleteDocuments]
    | ok summary =>
      cases summary with
      | none => simp [batchDeleteDocuments]
      | some p =>
        obtain ⟨s, f⟩ := p
        have hs : s + f = (a :: l).length := by
          simpa [summarySumsTo] using hsum
        simpa [batchDeleteDocuments] using hs

/-- C8 witness: a two-identifier request with a well-formed partial
summary sums to two. -/
theorem batchDeleteDocuments_counts_witness :
    (batchDeleteDocuments ["a", "b"] (.ok (some (1, 1)))).1
      + (batchDeleteDocuments ["a", "b"] (.ok (some (1, 1)))).2
      = (["a", "b"] : List String).length :=
  batchDeleteDocuments_counts ["a", "b"] (.ok (some (1, 1))) (by decide) (by decide)

/-! ### C10: derived statistics are total on the empty collection -/

/-- C10: `getTopicStats` on the empty topics list returns the all-zero
statistics object, and `getDocumentStats` on the empty documents list
returns zero counts with `successRate` zero: the coverage and
success-rate divisions are guarded by the non-zero-total checks. -/
theorem stats_total_on_empty :
    getTopicStats [] = ⟨0, 0, 0, 0, 0⟩ ∧ getDocumentStats [] = ⟨0, 0, 0, 0, 0, 0⟩ :=
  ⟨rfl, rfl⟩

/-! ### C6: evolution shape of the chat message list -/

lemma sameExceptRating_refl (m : ChatMsg) : sameExceptRating m m := rfl

lemma forall₂_sameExceptRating_self (ms : List ChatMsg) :
    List.Forall₂ sameExceptRating ms ms := by
  induction ms with
  | nil => exact List.Forall₂.nil
  | cons m rest ih => exact List.Forall₂.cons (sameExceptRating_refl m) ih

lemma forall₂_applyRating (ms : List ChatMsg) (messageId : String) (rating : Nat) :
    List.Forall₂ sameExceptRating ms (applyRating ms messageId rating) := by
  induction ms with
  | nil => exact List.Forall₂.nil
  | cons m rest ih =>
    refine List.Forall₂.cons ?_ ih
    by_cases h : (m.id == messageId) = true
    · simp only [h, if_true]
      rfl
    · simp only [h, if_false]
      rfl

lemma sendMessage_eq (ms : List ChatMsg) (content : String) (isLoading : Bool)
    (userMsg : ChatMsg) (out : SendOutcome) :
    sendMessage ms content isLoading userMsg out = ms
      ∨ sendMessage ms content isLoading userMsg out = ms ++ [userMsg, outcomeMsg out] := by
  unfold sendMessage
  split
  · exact Or.inl rfl
  · right
    simp

lemma regenerateResponse_eq (ms : List ChatMsg) (messageId : String) (o : RegenOptions)
    (isLoading : Bool) (newUserMsg : ChatMsg) (out : SendOutcome) :
    regenerateResponse ms messageId o isLoading newUserMsg out = ms
      ∨ regenerateResponse ms messageId o isLoading newUserMsg out = removeMessage ms messageId
      ∨ regenerateResponse ms messageId o isLoading newUserMsg out
          = removeMessage ms messageId ++ [newUserMsg, outcomeMsg out] := by
  unfold regenerateResponse
  split
  · exact Or.inl rfl
  · dsimp only
    split
    · exact Or.inl rfl
    · split
      · rcases sendMessage_eq (ms.filter (fun m => !(m.id == messageId))) _
            isLoading newUserMsg out with hcase | hcase
        · exact Or.inr (Or.inl hcase)
        · exact Or.inr (Or.inr hcase)
      · exact Or.inl rfl

/-- C6 counterexample: the claim forbids removal of previously rendered
messages, but `removeMessage` deletes the identified message from the
list. -/
theorem removeMessage_removes :
    removeMessage [c6Msg] "a" = [] ∧ ([c6Msg] : List ChatMsg) ≠ [] := by
  decide

/-- C6 amended: the exact shape of every chat-hook operation.
`sendMessage` either leaves the list unchanged or appends the user
message and one assistant message at the end; `removeMessage` and
`clearMessages` produce order-preserving selections (sublists) of the
input; `rateMessage` produces a list pointwise equal to the input
except for rating fields (same length, same order); and
`regenerateResponse` leaves the list unchanged, or removes the
regenerated message, or removes it and appends the new user and
assistant messages at the end.  In particular no operation reorders
surviving messages. -/
theorem chat_ops_shape (ms : List ChatMsg) (content : String)
    (isLoading : Bool) (userMsg : ChatMsg) (out : SendOutcome) (messageId : String)
    (rating : Nat) (apiOk : Bool) (o : RegenOptions) (newUserMsg : ChatMsg) :
    (sendMessage ms content isLoading userMsg out = ms
        ∨ sendMessage ms content isLoading userMsg out = ms ++ [userMsg, outcomeMsg out])
      ∧ List.Sublist (removeMessage ms messageId) ms
      ∧ List.Sublist clearMessages ms
      ∧ List.Forall₂ sameExceptRating ms (rateMessage ms messageId rating apiOk)
      ∧ (regenerateResponse ms messageId o isLoading newUserMsg out = ms
        ∨ regenerateResponse ms messageId o isLoading newUserMsg out = removeMessage ms messageId
        ∨ regenerateResponse ms messageId o isLoading newUserMsg out
            = removeMessage ms messageId ++ [newUserMsg, outcomeMsg out]) := by
  refine ⟨sendMessage_eq ms content isLoading userMsg out, List.filter_sublist ms,
    List.nil_sublist ms, ?_, regenerateResponse_eq ms messageId o isLoading newUserMsg out⟩
  unfold rateMessage
  split
  · split
    · split
      · exact forall₂_applyRating ms messageId rating
      · exact forall₂_sameExceptRating_self ms
    · exact forall₂_applyRating ms messageId rating
  · exact forall₂_applyRating ms messageId rating

/-! ### C9: the retry helper -/

lemma isClientError_eq_false_of_retriable (e : AttemptResult) (h : retriable e = true) :
    isClientError e = false := by
  cases e with
  | success => simp [retriable] at h
  | netFail => rfl
  | httpFail s =>
    simp only [retriable, Bool.not_eq_true'] at h
    simpa [isClientError] using h

lemma delays_shift (baseDelay a j : Nat) :
    (List.range (j + 1)).map (fun i => baseDelay * 2 ^ (a + i)) =
      baseDelay * 2 ^ a :: (List.range j).map (fun i => baseDelay * 2 ^ (a + 1 + i)) := by
  rw [List.range_succ_eq_map, List.map_cons, List.map_map]
  refine congrArg₂ List.cons ?_ ?_
  · rw [Nat.add_zero]
  · refine List.map_congr_left ?_
    intro i _
    simp only [Function.comp_apply]
    show baseDelay * 2 ^ (a + (i + 1)) = baseDelay * 2 ^ (a + 1 + i)
    rw [show a + (i + 1) = a + 1 + i by omega]

lemma retryAux_client (res : Nat → AttemptResult) (baseDelay maxRetries : Nat) :
    ∀ (j a : Nat), a + j ≤ maxRetries →
      (∀ i, i < j → retriable (res (a + i)) = true) →
      isClientError (res (a + j)) = true →
      retryAux res baseDelay maxRetries a (maxRetries + 1 - a) =
        (.thrown (res (a + j)) (a + j),
          (List.range j).map (fun i => baseDelay * 2 ^ (a + i))) := by
  intro j
  induction j with
  | zero =>
    intro a hle hre hce
    have hfuel : maxRetries + 1 - a = (maxRetries - a) + 1 := by omega
    rw [hfuel]
    simp only [retryAux]
    rw [Nat.add_zero] at hce
    cases he : res a with
    | success => rw [he] at hce; simp [isClientError] at hce
    | netFail => rw [he] at hce; simp [isClientError] at hce
    | httpFail s =>
      rw [he] at hce
      by_cases hm : (a == maxRetries) = true
      · simp [he, hm, Nat.add_zero]
      · simp only [Bool.not_eq_true] at hm
        simp [he, hm, hce, Nat.add_zero]
  | succ j ih =>
    intro a hle hre hce
    have hfuel : maxRetries + 1 - a = (maxRetries - a) + 1 := by omega
    rw [hfuel]
    simp only [retryAux]
    have hr0 : retriable (res a) = true := by
      have h0 := hre 0 (Nat.succ_pos j)
      rwa [Nat.add_zero] at h0
    have ham : (a == maxRetries) = false := by
      have hne : a ≠ maxRetries := by omega
      simpa using hne
    have hcef : isClientError (res a) = false :=
      isClientError_eq_false_of_retriable _ hr0
    have IH := ih (a + 1) (by omega)
      (fun i hi => by
        have h1 := hre (i + 1) (by omega)
        rwa [show a + (i + 1) = (a + 1) + i by omega] at h1)
      (by rwa [show a + (j + 1) = (a + 1) + j by omega] at hce)
    cases he : res a with
    | success => rw [he] at hr0; simp [retriable] at hr0
    | netFail =>
      rw [he] at hcef
      simp only [ham, Bool.false_eq_true, if_false, hcef, if_false]
      rw [show maxRetries - a = maxRetries + 1 - (a + 1) by omega, IH]
      dsimp only
      rw [delays_shift baseDelay a j]
      rw [show a + (j + 1) = a + 1 + j by omega]
    | httpFail s =>
      rw [he] at hcef
      simp only [ham, Bool.false_eq_true, if_false, hcef, if_false]
      rw [show maxRetries - a = maxRetries + 1 - (a + 1) by omega, IH]
      dsimp only
      rw [delays_shift baseDelay a j]
      rw [show a + (j + 1) = a + 1 + j by omega]

lemma retryAux_exhaust (res : Nat → AttemptResult) (baseDelay maxRetries : Nat) :
    ∀ (m a : Nat), a + m = maxRetries →
      (∀ i, i ≤ m → retriable (res (a + i)) = true) →
      retryAux res baseDelay maxRetries a (maxRetries + 1 - a) =
        (.thrown (res maxRetries) maxRetries,
          (List.range m).map (fun i => baseDelay * 2 ^ (a + i))) := by
  intro m
  induction m with
  | zero =>
    intro a heq hre
    have hfuel : maxRetries + 1 - a = (maxRetries - a) + 1 := by omega
    rw [hfuel]
    simp only [retryAux]
    have hr0 : retriable (res a) = true := by
      have h0 := hre 0 (Nat.le_refl 0)
      rwa [Nat.add_zero] at h0
    have ham : (a == maxRetries) = true := by simpa using heq
    cases he : res a with
    | success => rw [he] at hr0; simp [retriable] at hr0
    | netFail =>
      simp only [ham, if_true]
      rw [← he, show a = maxRetries from heq]
      simp
    | httpFail s =>
      simp only [ham, if_true]
      rw [← he, show a = maxRetries from heq]
      simp
  | succ m ih =>
    intro a heq hre
    have hfuel : maxRetries + 1 - a = (maxRetries - a) + 1 := by omega
    rw [hfuel]
    simp only [retryAux]
    have hr0 : retriable (res a) = true := by
      have h0 := hre 0 (Nat.zero_le (m + 1))
      rwa [Nat.add_zero] at h0
    have ham : (a == maxRetries) = false := by
      have hne : a ≠ maxRetries := by omega
      simpa using hne
    have hcef : isClientError (res a) = false :=
      isClientError_eq_false_of_retriable _ hr0
    have IH := ih (a + 1) (by omega)
      (fun i hi => by
        have h1 := hre (i + 1) (by omega)
        rwa [show a + (i + 1) = (a + 1) + i by omega] at h1)
    cases he : res a with
    | success => rw [he] at hr0; simp [retriable] at hr0
    | netFail =>
      rw [he] at hcef
      simp only [ham, Bool.false_eq_true, if_false, hcef, if_false]
      rw [show maxRetries - a = maxRetries + 1 - (a + 1) by omega, IH]
      dsimp only
      rw [delays_shift baseDelay a m]
    | httpFail s =>
      rw [he] at hcef
      simp only [ham, Bool.false_eq_true, if_false, hcef, if_false]
      rw [show maxRetries - a = maxRetries + 1 - (a + 1) by omega, IH]
      dsimp only
      rw [delays_shift baseDelay a m]

/-- C9: `retryApiCall` never retries a 4xx client error — when attempt
`j` fails with a client error after `j` retriable failures, the error
is rethrown at attempt `j` with exactly the `j` doubling backoff delays
slept so far — and when every attempt up to `maxRetries` fails
retriably (5xx or network), the helper stops after the fixed maximum
attempt count, rethrowing the last error, having slept the doubling
backoff delays. -/
theorem retryApiCall_spec :
    (∀ (res : Nat → AttemptResult) (maxRetries baseDelay j : Nat),
      j ≤ maxRetries →
      (∀ i, i < j → retriable (res i) = true) →
      isClientError (res j) = true →
      retryApiCall res maxRetries baseDelay = (.thrown (res j) j, backoffDelays baseDelay j))
    ∧ (∀ (res : Nat → AttemptResult) (maxRetries baseDelay : Nat),
      (∀ i, i ≤ maxRetries → retriable (res i) = true) →
      retryApiCall res maxRetries baseDelay =
        (.thrown (res maxRetries) maxRetries, backoffDelays baseDelay maxRetries)) := by
  constructor
  · intro res maxRetries baseDelay j hj hre hce
    have h := retryAux_client res baseDelay maxRetries j 0 (by omega)
      (fun i hi => by simpa using hre i hi) (by simpa using hce)
    unfold retryApiCall
    rw [show maxRetries + 1 = maxRetries + 1 - 0 by omega, h]
    simp [backoffDelays]
  · intro res maxRetries baseDelay hre
    have h := retryAux_exhaust res baseDelay maxRetries maxRetries 0 (by omega)
      (fun i hi => by simpa using hre i hi)
    unfold retryApiCall
    rw [show maxRetries + 1 = maxRetries + 1 - 0 by omega, h]
    simp [backoffDelays]

/-- C9 witness: a network failure followed by an HTTP 404 rethrows the
404 at attempt 1 after a single 1000 ms delay, and three consecutive
HTTP 500 failures with `maxRetries = 2` exhaust the attempts and
rethrow after delays 500 and 1000. -/
theorem retryApiCall_spec_witness :
    retryApiCall retryRes1 3 1000 = (.thrown (.httpFail 404) 1, [1000])
      ∧ retryApiCall retryRes2 2 500 = (.thrown (.httpFail 500) 2, [500, 1000]) := by
  constructor
  · have h := retryApiCall_spec.1 retryRes1 3 1000 1 (by omega) (by decide) (by decide)
    rw [h]; decide
  · have h := retryApiCall_spec.2 retryRes2 2 500 (by decide)
    rw [h]; decide

/-! ### C2, C3: sanitizer lemmas -/

lemma tryDropCI_length : ∀ (pat s r : List Char),
    tryDropCI pat s = some r → r.length + pat.length = s.length := by
  intro pat
  induction pat with
  | nil =>
    intro s r h
    simp only [tryDropCI, Option.some.injEq] at h
    simp [← h]
  | cons p ps ih =>
    intro s r h
    cases s with
    | nil => simp [tryDropCI] at h
    | cons c cs =>
      simp only [tryDropCI] at h
      by_cases hc : lcEq p c = true
      · rw [if_pos hc] at h
        have := ih cs r h
        simp [List.length_cons]
        omega
      · rw [if_neg hc] at h
        exact absurd h (by simp)

lemma tryDropCI_length_lt (pat s r : List Char) (hp : pat ≠ [])
    (h : tryDropCI pat s = some r) : r.length < s.length := by
  cases pat with
  | nil => exact absurd rfl hp
  | cons p ps =>
    have := tryDropCI_length (p :: ps) s r h
    simp only [List.length_cons] at this
    omega

lemma findClose_length : ∀ (s r : List Char), findClose s = some r → r.length < s.length := by
  intro s
  induction s with
  | nil => intro r h; simp [findClose] at h
  | cons c cs ih =>
    intro r h
    simp only [findClose] at h
    cases htd : tryDropCI thinkClose (c :: cs) with
    | some rest =>
      rw [htd] at h
      dsimp only at h
      simp only [Option.some.injEq] at h
      exact h ▸ tryDropCI_length_lt thinkClose (c :: cs) rest (by decide) htd
    | none =>
      rw [htd] at h
      dsimp only at h
      have := ih r h
      simp only [List.length_cons]
      omega

lemma removeThinkAux_mono : ∀ (n m : Nat) (s : List Char),
    s.length ≤ n → s.length ≤ m → removeThinkAux n s = removeThinkAux m s := by
  intro n
  induction n with
  | zero =>
    intro m s hn _
    have hs : s = [] := List.length_eq_zero.mp (Nat.le_zero.mp hn)
    subst hs
    cases m <;> rfl
  | succ n ih =>
    intro m s hn hm
    cases s with
    | nil => cases m <;> rfl
    | cons c cs =>
      cases m with
      | zero => simp at hm
      | succ m2 =>
        simp only [removeThinkAux]
        cases htd : tryDropCI thinkOpen (c :: cs) with
        | some rest =>
          dsimp only
          cases hfc : findClose rest with
          | some rest2 =>
            dsimp only
            have h1 : rest.length < (c :: cs).length :=
              tryDropCI_length_lt thinkOpen (c :: cs) rest (by decide) htd
            have h2 : rest2.length < rest.length := findClose_length rest rest2 hfc
            simp only [List.length_cons] at h1 hn hm
            exact ih m2 rest2 (by omega) (by omega)
          | none =>
            dsimp only
            simp only [List.length_cons] at hn hm
            rw [ih m2 cs (by omega) (by omega)]
        | none =>
          dsimp only
          simp only [List.length_cons] at hn hm
          rw [ih m2 cs (by omega) (by omega)]

lemma removeThink_cons_of_none (c : Char) (cs : List Char)
    (h : tryDropCI thinkOpen (c :: cs) = none) :
    removeThink (c :: cs) = c :: removeThink cs := by
  unfold removeThink
  simp only [List.length_cons, removeThinkAux, h]

lemma removeThink_cons_noclose (c : Char) (cs rest : List Char)
    (h1 : tryDropCI thinkOpen (c :: cs) = some rest) (h2 : findClose rest = none) :
    removeThink (c :: cs) = c :: removeThink cs := by
  unfold removeThink
  simp only [List.length_cons, removeThinkAux, h1, h2]

lemma removeThink_cons_del (c : Char) (cs rest rest2 : List Char)
    (h1 : tryDropCI thinkOpen (c :: cs) = some rest) (h2 : findClose rest = some rest2) :
    removeThink (c :: cs) = removeThink rest2 := by
  unfold removeThink
  simp only [List.length_cons, removeThinkAux, h1, h2]
  have ha : rest.length < (c :: cs).length :=
    tryDropCI_length_lt thinkOpen (c :: cs) rest (by decide) h1
  have hb : rest2.length < rest.length := findClose_length rest rest2 h2
  simp only [List.length_cons] at ha
  exact removeThinkAux_mono cs.length rest2.length rest2 (by omega) (by omega)

lemma tryDropCI_of_ciEqL : ∀ (pat v rest : List Char),
    ciEqL pat v = true → tryDropCI pat (v ++ rest) = some rest := by
  intro pat
  induction pat with
  | nil =>
    intro v rest hv
    cases v with
    | nil => rfl
    | cons c cs => simp [ciEqL] at hv
  | cons p ps ih =>
    intro v rest hv
    cases v with
    | nil => simp [ciEqL] at hv
    | cons c cs =>
      simp only [ciEqL, Bool.and_eq_true] at hv
      simp only [List.cons_append, tryDropCI, hv.1, if_true]
      exact ih cs rest hv.2

lemma tryDropCI_eq_none_of_not_headMatch (pat s : List Char)
    (h : headMatch pat s = false) : tryDropCI pat s = none := by
  unfold headMatch at h
  cases htd : tryDropCI pat s with
  | none => rfl
  | some rest => rw [htd] at h; simp at h

lemma noMatchWithin_cons (pat : List Char) (c : Char) (cs t : List Char)
    (h : noMatchWithin pat (c :: cs) t = true) :
    headMatch pat (c :: (cs ++ t)) = false ∧ noMatchWithin pat cs t = true := by
  simp only [noMatchWithin, Bool.and_eq_true, Bool.not_eq_true'] at h
  exact h

lemma removeThink_append : ∀ (a t : List Char),
    noMatchWithin thinkOpen a t = true → removeThink (a ++ t) = a ++ removeThink t := by
  intro a
  induction a with
  | nil => intro t _; rfl
  | cons c cs ih =>
    intro t h
    obtain ⟨h1, h2⟩ := noMatchWithin_cons thinkOpen c cs t h
    have htd : tryDropCI thinkOpen (c :: (cs ++ t)) = none :=
      tryDropCI_eq_none_of_not_headMatch thinkOpen (c :: (cs ++ t)) h1
    show removeThink (c :: (cs ++ t)) = c :: (cs ++ removeThink t)
    rw [removeThink_cons_of_none c (cs ++ t) htd, ih t h2]

lemma removeThink_id (s : List Char) (h : noMatchWithin thinkOpen s [] = true) :
    removeThink s = s := by
  have h2 := removeThink_append s [] h
  simpa [show removeThink ([] : List Char) = [] from rfl] using h2

lemma findClose_append : ∀ (b cl c : List Char),
    noMatchWithin thinkClose b (cl ++ c) = true →
    tryDropCI thinkClose (cl ++ c) = some c →
    findClose (b ++ (cl ++ c)) = some c := by
  intro b
  induction b with
  | nil =>
    intro cl c _ hcl
    cases hcc : cl ++ c with
    | nil =>
      rw [hcc] at hcl
      have : tryDropCI thinkClose ([] : List Char) = none := rfl
      rw [this] at hcl
      exact absurd hcl (by simp)
    | cons x xs =>
      rw [List.nil_append]
      rw [hcc] at hcl
      simp only [findClose, hcl]
  | cons d ds ih =>
    intro cl c h hcl
    obtain ⟨h1, h2⟩ := noMatchWithin_cons thinkClose d ds (cl ++ c) h
    have htd : tryDropCI thinkClose (d :: (ds ++ (cl ++ c))) = none :=
      tryDropCI_eq_none_of_not_headMatch thinkClose _ h1
    show findClose (d :: (ds ++ (cl ++ c))) = some c
    simp only [findClose, htd]
    exact ih cl c h2 hcl

lemma removeThink_span (o b cl c : List Char)
    (ho : ciEqL thinkOpen o = true) (hcl : ciEqL thinkClose cl = true)
    (hb : noMatchWithin thinkClose b (cl ++ c) = true) :
    removeThink (o ++ (b ++ (cl ++ c))) = removeThink c := by
  cases o with
  | nil => exact absurd ho (by decide)
  | cons x xs =>
    have htd : tryDropCI thinkOpen ((x :: xs) ++ (b ++ (cl ++ c))) = some (b ++ (cl ++ c)) :=
      tryDropCI_of_ciEqL thinkOpen (x :: xs) (b ++ (cl ++ c)) ho
    have hfc : findClose (b ++ (cl ++ c)) = some c :=
      findClose_append b cl c hb (tryDropCI_of_ciEqL thinkClose cl c hcl)
    show removeThink (x :: (xs ++ (b ++ (cl ++ c)))) = removeThink c
    exact removeThink_cons_del x (xs ++ (b ++ (cl ++ c))) (b ++ (cl ++ c)) c htd hfc

lemma closeTok_ne_nil (name : List Char) : closeTok name ≠ [] := by
  simp [closeTok]

lemma openTok_ne_nil (name : List Char) : openTok name ≠ [] := by
  simp [openTok]

lemma stripTagAux_mono (name : List Char) : ∀ (n m : Nat) (s : List Char),
    s.length ≤ n → s.length ≤ m → stripTagAux name n s = stripTagAux name m s := by
  intro n
  induction n with
  | zero =>
    intro m s hn _
    have hs : s = [] := List.length_eq_zero.mp (Nat.le_zero.mp hn)
    subst hs
    cases m <;> rfl
  | succ n ih =>
    intro m s hn hm
    cases s with
    | nil => cases m <;> rfl
    | cons c cs =>
      cases m with
      | zero => simp at hm
      | succ m2 =>
        simp only [stripTagAux]
        cases htc : tryDropCI (closeTok name) (c :: cs) with
        | some rest =>
          dsimp only
          have h1 : rest.length < (c :: cs).length :=
            tryDropCI_length_lt (closeTok name) (c :: cs) rest (closeTok_ne_nil name) htc
          simp only [List.length_cons] at h1 hn hm
          exact ih m2 rest (by omega) (by omega)
        | none =>
          dsimp only
          cases hto : tryDropCI (openTok name) (c :: cs) with
          | some rest =>
            dsimp only
            have h1 : rest.length < (c :: cs).length :=
              tryDropCI_length_lt (openTok name) (c :: cs) rest (openTok_ne_nil name) hto
            simp only [List.length_cons] at h1 hn hm
            exact ih m2 rest (by omega) (by omega)
          | none =>
            dsimp only
            simp only [List.length_cons] at hn hm
            rw [ih m2 cs (by omega) (by omega)]

lemma stripTag_cons_close (name : List Char) (c : Char) (cs rest : List Char)
    (h : tryDropCI (closeTok name) (c :: cs) = some rest) :
    stripTag name (c :: cs) = stripTag name rest := by
  unfold stripTag
  simp only [List.length_cons, stripTagAux, h]
  have h1 : rest.length < (c :: cs).length :=
    tryDropCI_length_lt (closeTok name) (c :: cs) rest (closeTok_ne_nil name) h
  simp only [List.length_cons] at h1
  exact stripTagAux_mono name cs.length rest.length rest (by omega) (by omega)

lemma stripTag_cons_open (name : List Char) (c : Char) (cs rest : List Char)
    (h1 : tryDropCI (closeTok name) (c :: cs) = none)
    (h2 : tryDropCI (openTok name) (c :: cs) = some rest) :
    stripTag name (c :: cs) = stripTag name rest := by
  unfold stripTag
  simp only [List.length_cons, stripTagAux, h1, h2]
  have h3 : rest.length < (c :: cs).length :=
    tryDropCI_length_lt (openTok name) (c :: cs) rest (openTok_ne_nil name) h2
  simp only [List.length_cons] at h3
  exact stripTagAux_mono name cs.length rest.length rest (by omega) (by omega)

lemma stripTag_cons_skip (name : List Char) (c : Char) (cs : List Char)
    (h1 : tryDropCI (closeTok name) (c :: cs) = none)
    (h2 : tryDropCI (openTok name) (c :: cs) = none) :
    stripTag name (c :: cs) = c :: stripTag name cs := by
  unfold stripTag
  simp only [List.length_cons, stripTagAux, h1, h2]

lemma stripTag_append (name : List Char) : ∀ (d t : List Char),
    noMatchWithin (closeTok name) d t = true →
    noMatchWithin (openTok name) d t = true →
    stripTag name (d ++ t) = d ++ stripTag name t := by
  intro d
  induction d with
  | nil => intro t _ _; rfl
  | cons c cs ih =>
    intro t hC hO
    obtain ⟨hC1, hC2⟩ := noMatchWithin_cons (closeTok name) c cs t hC
    obtain ⟨hO1, hO2⟩ := noMatchWithin_cons (openTok name) c cs t hO
    show stripTag name (c :: (cs ++ t)) = c :: (cs ++ stripTag name t)
    rw [stripTag_cons_skip name c (cs ++ t)
        (tryDropCI_eq_none_of_not_headMatch _ _ hC1)
        (tryDropCI_eq_none_of_not_headMatch _ _ hO1),
      ih t hC2 hO2]

lemma stripTag_id (name s : List Char)
    (hC : noMatchWithin (closeTok name) s [] = true)
    (hO : noMatchWithin (openTok name) s [] = true) :
    stripTag name s = s := by
  have h2 := stripTag_append name s [] hC hO
  simpa [show stripTag name [] = [] from rfl] using h2

lemma stripTag_close_del (name v e : List Char)
    (hv : ciEqL (closeTok name) v = true) :
    stripTag name (v ++ e) = stripTag name e := by
  cases v with
  | nil =>
    rw [show ciEqL (closeTok name) [] = false from by simp [ciEqL, closeTok]] at hv
    exact absurd hv (by simp)
  | cons x xs =>
    exact stripTag_cons_close name x (xs ++ e) e
      (tryDropCI_of_ciEqL (closeTok name) (x :: xs) e hv)

lemma stripTag_open_del (name v e : List Char)
    (hv : ciEqL (openTok name) v = true)
    (hnc : headMatch (closeTok name) (v ++ e) = false) :
    stripTag name (v ++ e) = stripTag name e := by
  cases v with
  | nil =>
    rw [show ciEqL (openTok name) [] = false from by simp [ciEqL, openTok]] at hv
    exact absurd hv (by simp)
  | cons x xs =>
    exact stripTag_cons_open name x (xs ++ e) e
      (tryDropCI_eq_none_of_not_headMatch _ _ hnc)
      (tryDropCI_of_ciEqL (openTok name) (x :: xs) e hv)

lemma dropWhile_head_not (p : Char → Bool) : ∀ (l : List Char) (x : Char),
    (l.dropWhile p).head? = some x → p x = false := by
  intro l
  induction l with
  | nil => intro x h; simp at h
  | cons c cs ih =>
    intro x h
    rw [List.dropWhile_cons] at h
    by_cases hc : p c = true
    · rw [if_pos hc] at h
      exact ih x h
    · rw [if_neg hc] at h
      simp only [List.head?_cons, Option.some.injEq] at h
      subst h
      simpa using hc

lemma dropWhile_eq_self_of_head (p : Char → Bool) (l : List Char)
    (h : ∀ x, l.head? = some x → p x = false) : l.dropWhile p = l := by
  cases l with
  | nil => rfl
  | cons c cs =>
    have hc := h c rfl
    rw [List.dropWhile_cons, hc]
    simp

lemma getLast?_of_suffix (l₁ l₂ : List Char) (h : l₂ <:+ l₁) (hne : l₂ ≠ []) :
    l₂.getLast? = l₁.getLast? := by
  obtain ⟨pre, rfl⟩ := h
  exact (List.getLast?_append_of_ne_nil pre hne).symm

lemma trimWS_idem (s : List Char) : trimWS (trimWS s) = trimWS s := by
  unfold trimWS
  generalize hu : s.dropWhile isJsWS = u
  generalize hw : u.reverse.dropWhile isJsWS = w
  have hwhead : ∀ x, w.head? = some x → isJsWS x = false := by
    intro x hx
    exact dropWhile_head_not _ _ x (hw ▸ hx)
  have huhead : ∀ x, u.head? = some x → isJsWS x = false := by
    intro x hx
    exact dropWhile_head_not _ _ x (hu ▸ hx)
  have h1 : w.reverse.dropWhile isJsWS = w.reverse := by
    apply dropWhile_eq_self_of_head
    intro x hx
    rw [List.head?_reverse] at hx
    have hwne : w ≠ [] := by
      intro hnil
      rw [hnil] at hx
      simp at hx
    have hsuf : w <:+ u.reverse := hw ▸ List.dropWhile_suffix isJsWS
    rw [getLast?_of_suffix u.reverse w hsuf hwne, List.getLast?_reverse] at hx
    exact huhead x hx
  rw [h1, List.reverse_reverse]
  rw [dropWhile_eq_self_of_head isJsWS w hwhead]

lemma trimWS_clean (s : List Char) :
    trimWS (cleanResponseContent s) = cleanResponseContent s := by
  unfold cleanResponseContent
  by_cases h : (s == []) = true
  · rw [if_pos h]
    rfl
  · rw [if_neg h]
    exact trimWS_idem _

/-- C2: the sanitizer deletes a case-insensitively tagged
`<think>...</think>` span together with its enclosed content; strips a
stray closing or opening `reasoning`/`final_answer` tag token while
preserving the surrounding text; is the composition of the span
removal, the two token removals and a final trim; and always returns
trimmed output.  Hypotheses state that the surrounding context matches
no tag at an earlier position (the regex replaces the first match) and
that the enclosed span contains no close tag (the lazy `*?` stops at
the nearest close tag). -/
theorem cleanResponseContent_spec
    (a b c o cl : List Char) (name d e vC vO : List Char)
    (ho : ciEqL thinkOpen o = true)
    (hcl : ciEqL thinkClose cl = true)
    (hA : noMatchWithin thinkOpen a (o ++ (b ++ (cl ++ c))) = true)
    (hB : noMatchWithin thinkClose b (cl ++ c) = true)
    (hvC : ciEqL (closeTok name) vC = true)
    (hdC : noMatchWithin (closeTok name) d (vC ++ e) = true)
    (hdO : noMatchWithin (openTok name) d (vC ++ e) = true)
    (heC : noMatchWithin (closeTok name) e [] = true)
    (heO : noMatchWithin (openTok name) e [] = true)
    (hvO : ciEqL (openTok name) vO = true)
    (hvOnc : headMatch (closeTok name) (vO ++ e) = false) :
    removeThink (a ++ (o ++ (b ++ (cl ++ c)))) = a ++ removeThink c
      ∧ stripTag name (d ++ (vC ++ e)) = d ++ e
      ∧ stripTag name (vO ++ e) = e
      ∧ (∀ s, cleanResponseContent s =
          if s == [] then []
          else trimWS (stripTag finalAnswerName (stripTag reasoningName (removeThink s))))
      ∧ (∀ s, trimWS (cleanResponseContent s) = cleanResponseContent s) := by
  refine ⟨?_, ?_, ?_, fun s => rfl, trimWS_clean⟩
  · rw [removeThink_append a _ hA, removeThink_span o b cl c ho hcl hB]
  · rw [stripTag_append name d (vC ++ e) hdC hdO, stripTag_close_del name vC e hvC,
      stripTag_id name e heC heO]
  · rw [stripTag_open_del name vO e hvO hvOnc, stripTag_id name e heC heO]

/-- C2 witness: a mixed-case `<THINK>...</Think>` span containing a
newline is deleted whole, and mixed-case stray `</ReAsOnInG>` and
`<REASONING>` tokens are stripped with the surrounding text kept. -/
theorem cleanResponseContent_spec_witness :
    removeThink (str "Intro " ++ (str "<THINK>" ++ (str "hidden\nstuff" ++ (str "</Think>" ++ str " tail"))))
        = str "Intro " ++ removeThink (str " tail")
      ∧ stripTag reasoningName (str "keep " ++ (str "</ReAsOnInG>" ++ str "rest")) = str "keep " ++ str "rest"
      ∧ stripTag reasoningName (str "<REASONING>" ++ str "rest") = str "rest" := by
  have h := cleanResponseContent_spec (str "Intro ") (str "hidden\nstuff") (str " tail")
    (str "<THINK>") (str "</Think>") reasoningName (str "keep ") (str "rest")
    (str "</ReAsOnInG>") (str "<REASONING>") (by decide) (by decide) (by decide) (by decide)
    (by decide) (by decide) (by decide) (by decide) (by decide) (by decide) (by decide)
  exact ⟨h.1, h.2.1, h.2.2.1⟩

/-- C3 counterexample: the sanitizer is not idempotent.  Removing the
inner `<reasoning>` token of this input splices the surrounding text
into a new `<reasoning>` token, which a second pass then removes. -/
theorem cleanResponseContent_not_idempotent :
    cleanResponseContent (cleanResponseContent c3Input) ≠ cleanResponseContent c3Input := by
  decide

/-- C3 amended: the sanitizer is idempotent on every input whose
sanitized form contains no residual occurrence of a `<think>` open tag
or of a `reasoning`/`final_answer` tag token — in particular on all
already-sanitized text without spliced tag tokens.  In general a single
pass can splice surrounding text into a new tag token, so re-running
the sanitizer can change the text again. -/
theorem cleanResponseContent_idem_of_clean (s : List Char)
    (h1 : noMatchWithin thinkOpen (cleanResponseContent s) [] = true)
    (h2 : noMatchWithin (closeTok reasoningName) (cleanResponseContent s) [] = true)
    (h3 : noMatchWithin (openTok reasoningName) (cleanResponseContent s) [] = true)
    (h4 : noMatchWithin (closeTok finalAnswerName) (cleanResponseContent s) [] = true)
    (h5 : noMatchWithin (openTok finalAnswerName) (cleanResponseContent s) [] = true) :
    cleanResponseContent (cleanResponseContent s) = cleanResponseContent s := by
  have htrim := trimWS_clean s
  generalize hT : cleanResponseContent s = T at h1 h2 h3 h4 h5 htrim ⊢
  by_cases hnil : (T == []) = true
  · have hTnil : T = [] := by simpa using hnil
    rw [hTnil]
    rfl
  · show cleanResponseContent T = T
    unfold cleanResponseContent
    rw [if_neg hnil]
    rw [removeThink_id T h1, stripTag_id reasoningName T h2 h3,
      stripTag_id finalAnswerName T h4 h5, htrim]

/-- C3 witness: a string whose sanitized form is plain text is a fixed
point of the second sanitizer pass. -/
theorem cleanResponseContent_idem_witness :
    cleanResponseContent (cleanResponseContent (str "  <think>x</think> hello  "))
      = cleanResponseContent (str "  <think>x</think> hello  ") :=
  cleanResponseContent_idem_of_clean (str "  <think>x</think> hello  ")
    (by decide) (by decide) (by decide) (by decide) (by decide)

/-! ### C4: poller terminal-state detection and teardown -/

lemma lookupKey_delKey (m : List (String × Nat)) (k : String) :
    lookupKey (delKey m k) k = none := by
  induction m with
  | nil => rfl
  | cons p rest ih =>
    obtain ⟨k2, v⟩ := p
    by_cases hk : (k2 == k) = true
    · simpa [delKey, hk] using ih
    · simp only [Bool.not_eq_true] at hk
      simpa [delKey, lookupKey, hk] using ih

lemma find?_filter_handle (l : List LiveInterval) (h : Nat) :
    (l.filter (fun li => !(li.handle == h))).find? (fun li => li.handle == h) = none := by
  rw [List.find?_eq_none]
  intro x hx
  have := (List.mem_filter.mp hx).2
  simp only [Bool.not_eq_true'] at this
  simp [this]

lemma not_mem_filter_ne (l : List String) (k : String) :
    k ∉ l.filter (fun i => !(i == k)) := by
  intro hmem
  have := (List.mem_filter.mp hmem).2
  simp at this

lemma value_mem_of_lookupKey : ∀ (m : List (String × Nat)) (k : String) (v : Nat),
    lookupKey m k = some v → v ∈ m.map Prod.snd := by
  intro m
  induction m with
  | nil => intro k v h; simp [lookupKey] at h
  | cons p rest ih =>
    intro k v h
    obtain ⟨k2, v2⟩ := p
    by_cases hk : (k2 == k) = true
    · rw [lookupKey, if_pos hk] at h
      simp only [Option.some.injEq] at h
      subst h
      simp
    · simp only [Bool.not_eq_true] at hk
      rw [lookupKey, if_neg (by simp [hk])] at h
      simp only [List.map_cons, List.mem_cons]
      exact Or.inr (ih k v h)

lemma stopPollingWith_spec (s : PollerState) (id : String) (h : Nat) (fl : Bool) (d : Document)
    (H1 : lookupKey s.pollingIntervals id = some h)
    (H3 : s.documents.find? (fun dd => dd.id == id) = some d)
    (H4 : d.status = DocStatus.processed ∨ d.status = DocStatus.error) :
    lookupKey (stopPollingWith s.pollingIntervals s.documents s id fl).pollingIntervals id = none
      ∧ (stopPollingWith s.pollingIntervals s.documents s id fl).live.find?
          (fun li => li.handle == h) = none
      ∧ (fl = true → id ∉ (stopPollingWith s.pollingIntervals s.documents s id fl).reprocessing)
      ∧ (fl = false → id ∉ (stopPollingWith s.pollingIntervals s.documents s id fl).processing)
      ∧ lookupKey (stopPollingWith s.pollingIntervals s.documents s id fl).processingTimers id = none
      ∧ (stopPollingWith s.pollingIntervals s.documents s id fl).toasts = s.toasts ++ [toastOf fl d] := by
  unfold stopPollingWith
  rw [H1, H3]
  dsimp only
  rcases H4 with h4 | h4 <;> cases fl <;>
    simp [toastOf, h4, lookupKey_delKey, find?_filter_handle, not_mem_filter_ne]

lemma foldl_monitorStep_no_trigger (snap : PollerState) :
    ∀ (ds : List Document) (acc : PollerState),
      (∀ d2 ∈ ds, monitorTrigger snap d2 = false) →
      ds.foldl (monitorStep snap) acc = acc := by
  intro ds
  induction ds with
  | nil => intro acc _; rfl
  | cons d rest ih =>
    intro acc hno
    rw [List.foldl_cons]
    have hd : monitorTrigger snap d = false := hno d (List.mem_cons_self d rest)
    rw [show monitorStep snap acc d = acc from by unfold monitorStep; simp [hd]]
    exact ih acc (fun d2 hd2 => hno d2 (List.mem_cons_of_mem d hd2))

lemma terminal_of_trigger (s : PollerState) (d : Document)
    (h : monitorTrigger s d = true) :
    d.status = DocStatus.processed ∨ d.status = DocStatus.error := by
  unfold monitorTrigger at h
  simp only [Bool.and_eq_true, Bool.or_eq_true, beq_iff_eq] at h
  exact h.2

/-- C4 amended: the interval callback itself cannot stop the poll — a
tick of a live timer whose captured documents snapshot shows its
document non-terminal (the usual case: the snapshot was taken when
polling started) only triggers the refresh.  The stop happens
immediately after the refresh, via the status-monitor effect: when the
refreshed documents show the tracked in-flight document terminal, the
effect removes the registry entry, clears the interval, removes the
identifier from the in-flight set named by its reprocessing flag,
clears the elapsed-time entry, emits a completion or failure toast
naming the file, and further ticks of that handle do nothing.  On
unmount every live timer is cleared provided every live timer is still
registered — which holds unless polling was re-started for an
identifier already being polled (the duplicate-start leak of C5). -/
theorem poller_terminal_stop_and_teardown :
    (∀ (s : PollerState) (h : Nat) (li : LiveInterval),
      s.live.find? (fun x => x.handle == h) = some li →
      capturedNotTerminal li = true →
      tickPoll s h = { s with refreshCalls := s.refreshCalls + 1 })
    ∧ (∀ (s : PollerState) (h : Nat) (fl : Bool) (d : Document) (docsA docsB : List Document),
      s.documents = docsA ++ d :: docsB →
      (∀ d2 ∈ docsA, monitorTrigger s d2 = false) →
      (∀ d2 ∈ docsB, monitorTrigger s d2 = false) →
      monitorTrigger s d = true →
      s.reprocessing.contains d.id = fl →
      lookupKey s.pollingIntervals d.id = some h →
      s.documents.find? (fun dd => dd.id == d.id) = some d →
      lookupKey (monitorEffect s).pollingIntervals d.id = none
        ∧ (monitorEffect s).live.find? (fun li => li.handle == h) = none
        ∧ (fl = true → d.id ∉ (monitorEffect s).reprocessing)
        ∧ (fl = false → d.id ∉ (monitorEffect s).processing)
        ∧ lookupKey (monitorEffect s).processingTimers d.id = none
        ∧ (monitorEffect s).toasts = s.toasts ++ [toastOf fl d]
        ∧ tickPoll (monitorEffect s) h = monitorEffect s)
    ∧ (∀ s : PollerState, registryComplete s → (unmountCleanup s).live = []) := by
  refine ⟨?_, ?_, ?_⟩
  · intro s h li H2 Hnt
    unfold tickPoll
    rw [H2]
    dsimp only
    unfold capturedNotTerminal at Hnt
    cases hfd : li.capturedDocuments.find? (fun d => d.id == li.docId) with
    | none => rfl
    | some d =>
      rw [hfd] at Hnt
      dsimp only at Hnt
      simp only [Bool.not_eq_true'] at Hnt
      simp [Hnt]
  · intro s h fl d docsA docsB hdocs hA hB htrig hflag H1 Hfind
    have hstep : monitorStep s s d = stopPollingWith s.pollingIntervals s.documents s d.id fl := by
      unfold monitorStep
      rw [hflag]
      simp [htrig]
    have heff : monitorEffect s = monitorStep s s d := by
      unfold monitorEffect
      rw [hdocs, List.foldl_append, foldl_monitorStep_no_trigger s docsA s hA, List.foldl_cons]
      exact foldl_monitorStep_no_trigger s docsB _ hB
    obtain ⟨c1, c2, c3, c4, c5, c6⟩ :=
      stopPollingWith_spec s d.id h fl d H1 Hfind (terminal_of_trigger s d htrig)
    rw [heff, hstep]
    refine ⟨c1, c2, c3, c4, c5, c6, ?_⟩
    unfold tickPoll
    rw [c2]
  · intro s hrc
    unfold unmountCleanup
    dsimp only
    rw [List.filter_eq_nil_iff]
    intro li hmem
    have hlk := hrc li hmem
    have hv : li.handle ∈ s.pollingIntervals.map Prod.snd :=
      value_mem_of_lookupKey s.pollingIntervals li.docId li.handle hlk
    have hcont : (s.pollingIntervals.map Prod.snd).contains li.handle = true :=
      List.elem_iff.mpr hv
    intro hbad
    rw [Bool.not_eq_true'] at hbad
    rw [hcont] at hbad
    exact Bool.noConfusion hbad

/-- C4 witness: starting from the processing document, the first tick
only triggers the refresh; once the refresh commits the processed
status, the monitor effect unregisters and clears the interval, removes
the identifier from the processing set, clears the timer entry, emits
the completion toast naming the file, and a further tick does nothing;
unmounting the registered state clears every live timer. -/
theorem poller_terminal_stop_witness :
    tickPoll pollStarted 0 = { pollStarted with refreshCalls := pollStarted.refreshCalls + 1 }
      ∧ (lookupKey (monitorEffect pollRefreshed).pollingIntervals "doc-1" = none
        ∧ (monitorEffect pollRefreshed).live.find? (fun li => li.handle == 0) = none
        ∧ (false = true → "doc-1" ∉ (monitorEffect pollRefreshed).reprocessing)
        ∧ (false = false → "doc-1" ∉ (monitorEffect pollRefreshed).processing)
        ∧ lookupKey (monitorEffect pollRefreshed).processingTimers "doc-1" = none
        ∧ (monitorEffect pollRefreshed).toasts =
            pollRefreshed.toasts ++ [toastOf false ⟨"doc-1", "report.pdf", DocStatus.processed⟩]
        ∧ tickPoll (monitorEffect pollRefreshed) 0 = monitorEffect pollRefreshed)
      ∧ (unmountCleanup pollStarted).live = [] :=
  ⟨poller_terminal_stop_and_teardown.1 pollStarted 0
      ⟨0, "doc-1", false, pollInit.documents, []⟩ (by decide) (by decide),
    poller_terminal_stop_and_teardown.2.1 pollRefreshed 0 false
      ⟨"doc-1", "report.pdf", DocStatus.processed⟩ [] [] (by decide) (by simp) (by simp)
      (by decide) (by decide) (by decide) (by decide),
    poller_terminal_stop_and_teardown.2.2 pollStarted (by unfold registryComplete; decide)⟩

/-- C4 counterexample: after a duplicate `startPolling` for the same
identifier, the displaced interval is not in the registry, so the
unmount cleanup does not clear it: a live timer survives teardown and
its next tick still triggers a document refresh, so the poller does
poll after component teardown. -/
theorem poller_polls_after_teardown :
    (unmountCleanup pollTwice).live ≠ []
      ∧ (tickPoll (unmountCleanup pollTwice) 0).refreshCalls
          = (unmountCleanup pollTwice).refreshCalls + 1 := by
  decide

end RagFe
